import Mathlib

/-!
Verification of the WebMD HTML-to-Markdown conversion core.

This file gives a shallow embedding of the tree-to-Markdown serialization
engine of the repository:

  * `src/archived-dev-files/html-to-markdown-parser.js`
    (class `HTMLToMarkdownParser`), and
  * `src/unnamed/part_001`
    (class `PerformanceOptimizedParser` and class `LRUCache`),

and proves or refutes the frozen claims about it.

Modelling conventions:

  * DOM nodes are heap objects in JavaScript, so the document is modelled as
    a `Store` (a list of nodes indexed by position) and a node is referred to
    by its index.  This makes object graphs with cycles representable, which
    the cycle-detection claim needs; ordinary documents are acyclic stores.
  * The `tag` field of an element plays the role of DOM `tagName`, which for
    HTML elements is the upper-case name (the parser itself lower-cases it
    before dispatching, exactly as the source does).
  * JavaScript recursion is modelled with an explicit fuel parameter; a
    result of `none` means the computation did not complete within the given
    fuel.  A computation that returns `none` for every fuel diverges, which
    is what the source's unbounded recursion does on a cyclic input.
  * Strings are Lean `String`s; the inputs of interest are ASCII, where
    JavaScript's `trim`, `split('\n')`, `padEnd` and `String.length` agree
    with the Lean counterparts used here.
-/

namespace WebMD

/-! ## Pure string helpers mirroring the JavaScript primitives used -/

/-- Lower-case an ASCII letter, as `String.prototype.toLowerCase` does on
the ASCII tag names that occur here. -/
def lcChar (c : Char) : Char :=
  if 'A' ≤ c ∧ c ≤ 'Z' then Char.ofNat (c.toNat + 32) else c

/-- Model of `tagName.toLowerCase()`. -/
def lowerStr (s : String) : String := ⟨s.data.map lcChar⟩

/-- Model of `'x'.repeat(n)`. -/
def strRepeat (s : String) (n : Nat) : String := String.join (List.replicate n s)

/-- Model of `String.prototype.padEnd(n)` (pad with spaces on the right). -/
def jsPadEnd (s : String) (n : Nat) : String :=
  s ++ ⟨List.replicate (n - s.length) ' '⟩

/-- Model of `String.prototype.trimRight` (used on the blockquote marker). -/
def trimRightStr (s : String) : String :=
  ⟨(s.data.reverse.dropWhile Char.isWhitespace).reverse⟩

/-- Model of `String.prototype.trim`: drop whitespace from both ends (the
inputs of interest are ASCII, where the JavaScript and Lean whitespace
classes agree). -/
def jsTrim (s : String) : String :=
  ⟨((s.data.dropWhile Char.isWhitespace).reverse.dropWhile Char.isWhitespace).reverse⟩

/-- Split a character list at every newline, as `split('\n')` does (an
empty string yields one empty piece). -/
def splitNL : List Char → List (List Char)
  | [] => [[]]
  | c :: cs =>
    let r := splitNL cs
    if c = '\n' then [] :: r
    else
      match r with
      | [] => [[c]]
      | x :: xs => (c :: x) :: xs

/-- Model of `String.prototype.split('\n')`. -/
def splitLines (s : String) : List String := (splitNL s.data).map (fun l => ⟨l⟩)

/-- Model of `Array.prototype.join(sep)` on a list of strings. -/
def joinWith (sep : String) : List String → String
  | [] => ""
  | [x] => x
  | x :: y :: xs => x ++ sep ++ joinWith sep (y :: xs)

/-- Model of `String.prototype.substring(0, n)`. -/
def strTake (s : String) (n : Nat) : String := ⟨s.data.take n⟩

/-- Decimal digits of a natural number (the first argument is fuel; the
number itself always suffices). -/
def natDecDigits : Nat → Nat → List Char
  | 0, _ => []
  | _ + 1, 0 => []
  | fuel + 1, n => natDecDigits fuel (n / 10) ++ [Char.ofNat (48 + n % 10)]

/-- Decimal rendering of a natural number, as JavaScript string conversion
produces for the non-negative integer counters used here. -/
def natToDec (n : Nat) : String := if n = 0 then "0" else ⟨natDecDigits n n⟩

/-- One step of collapsing: the Boolean records whether the previous
character was whitespace (inside a run that was already replaced). -/
def collapseList : List Char → Bool → List Char
  | [], _ => []
  | c :: cs, prevWs =>
    if c.isWhitespace then
      if prevWs then collapseList cs true else ' ' :: collapseList cs true
    else c :: collapseList cs false

/-- Model of `text.replace(/\s+/g, ' ')`: every maximal run of whitespace
becomes a single space. -/
def collapseWS (s : String) : String := ⟨collapseList s.data false⟩

/-- Substring test on character lists: does the pattern occur as a prefix? -/
def listStarts : List Char → List Char → Bool
  | _, [] => true
  | [], _ :: _ => false
  | c :: cs, p :: ps => c = p && listStarts cs ps

/-- Substring test on character lists: does the pattern occur anywhere? -/
def listHasSub : List Char → List Char → Bool
  | l, p =>
    listStarts l p ||
      match l with
      | [] => false
      | _ :: cs => listHasSub cs p

/-- Model of `String.prototype.includes`. -/
def strHasSub (s pat : String) : Bool := listHasSub s.data pat.data

/-- The character class escaped by `escapeMarkdown` (source line 106): the
backslash, backtick, asterisk, underscore, braces, square brackets,
parentheses, hash, plus, minus, dot, bang and pipe; the braces are written
via their code points. -/
def escapeChars : List Char :=
  ['\\', '`', '*', '_', Char.ofNat 123, Char.ofNat 125, '[', ']', '(', ')',
    '#', '+', '-', '.', '!', '|']

/-- Character-list version of the escaping regex replacement: each character
of the class is replaced by a backslash followed by itself. -/
def escapeList : List Char → List Char
  | [] => []
  | c :: cs =>
    if c ∈ escapeChars then '\\' :: c :: escapeList cs else c :: escapeList cs

/-- Model of `HTMLToMarkdownParser.escapeMarkdown` (source lines 101-110):
returns the text unchanged in preformatted state, otherwise escapes every
occurrence of a Markdown metacharacter with a single backslash. -/
def escapeMarkdown (preformatted : Bool) (text : String) : String :=
  if preformatted then text else ⟨escapeList text.data⟩

/-- A word character in the sense of the regex class `\w`. -/
def isWordChar (c : Char) : Bool := c.isAlphanum || c = '_'

/-- Attempt to match the regex `language-(\w+)` at the head of the list,
returning the captured group. -/
def tryLangAt (l : List Char) : Option String :=
  if listStarts l "language-".data then
    let run := (l.drop 9).takeWhile isWordChar
    if run.isEmpty then none else some ⟨run⟩
  else none

/-- Find the first match of `language-(\w+)` anywhere in the list. -/
def findLangMatch : List Char → Option String
  | [] => none
  | c :: cs =>
    match tryLangAt (c :: cs) with
    | some lang => some lang
    | none => findLangMatch cs

/-- Model of `HTMLToMarkdownParser.detectLanguage` (source lines 434-438):
the first `language-<token>` occurrence in the class attribute, else `''`. -/
def detectLanguage (className : String) : String :=
  (findLangMatch className.data).getD ""

/-- Model of `HTMLToMarkdownParser.resolveUrl` (source lines 440-446).  The
source calls the host API `new URL(url, baseUrl).href` and falls back to the
unchanged `url` on failure; the pure tree model carries no base URI, so
resolution is modelled as the identity (none of the claims depends on URL
normalisation). -/
def resolveUrl (url : String) : String := url

/-! ## Data model: nodes, store, parser options and traversal state -/

/-- A DOM node: an element (with `tagName`, attribute map and child node
references), a text node, or any other node kind (comments etc., which
`processNode` ignores).  Children are indices into a `Store`, which makes
the JavaScript object graph — including a cyclic one — representable. -/
inductive GNode where
  | text (content : String)
  | element (tag : String) (attrs : List (String × String)) (children : List Nat)
  | other
deriving DecidableEq, Repr

/-- The node heap: index `i` holds node `i`.  A dangling index plays the
role of a `null` node reference. -/
abbrev Store := List GNode

/-- Model of `element.getAttribute(k) || ''`: the attribute value, or the
empty string when the attribute is absent. -/
def jsGetAttribute (attrs : List (String × String)) (k : String) : String :=
  ((attrs.find? (fun a => a.1 = k)).map (fun a => a.2)).getD ""

/-- Child node references of a node (`node.childNodes`); non-elements have
none. -/
def childIdsOf (store : Store) (id : Nat) : List Nat :=
  match store.get? id with
  | some (GNode.element _ _ cs) => cs
  | _ => []

/-- Attribute list of a node; non-elements have none. -/
def attrsOfId (store : Store) (id : Nat) : List (String × String) :=
  match store.get? id with
  | some (GNode.element _ attrs _) => attrs
  | _ => []

/-- One frame of the list-nesting stack (`{ type, counter }` in the
source). -/
structure ListFrame where
  type : String
  counter : Nat
deriving DecidableEq, Repr

/-- The mutable conversion state of `HTMLToMarkdownParser` (source lines
20-26 and 34-40).  The head of `listStack` is the innermost frame (the end
of the JavaScript array). -/
structure ConvState where
  listStack : List ListFrame := []
  blockquoteDepth : Nat := 0
  preformatted : Bool := false
  references : List (Nat × String) := []
  referenceCounter : Nat := 0
deriving DecidableEq, Repr

/-- The fresh state installed at the start of every `convert` call. -/
def initState : ConvState := {}

/-- The `HTMLToMarkdownParser` options (source lines 8-17), with the same
defaults. -/
structure Options where
  headingStyle : String := "atx"
  bulletListMarker : String := "-"
  codeBlockStyle : String := "fenced"
  linkStyle : String := "inline"
  emDelimiter : String := "*"
  strongDelimiter : String := "**"
  preserveWhitespace : Bool := false
deriving DecidableEq, Repr

/-- The defaulted options object. -/
def defaultOptions : Options := {}

/-- Model of `HTMLToMarkdownParser.processTextNode` (source lines 79-96):
preformatted text passes through verbatim; otherwise whitespace runs are
collapsed (unless `preserveWhitespace`) and the result is escaped. -/
def processTextNode (opts : Options) (st : ConvState) (content : String) : String :=
  if st.preformatted then content
  else
    escapeMarkdown st.preformatted
      (if opts.preserveWhitespace then content else collapseWS content)

/-- Model of `HTMLToMarkdownParser.processInlineCode` (source lines
317-323): wrap in one backtick, or two when the content contains one. -/
def processInlineCode (code : String) : String :=
  let backticks := if strHasSub code "`" then "``" else "`"
  backticks ++ code ++ backticks

/-- Model of `HTMLToMarkdownParser.processImage` (source lines 297-312). -/
def processImage (attrs : List (String × String)) : String :=
  let src := jsGetAttribute attrs "src"
  let alt := jsGetAttribute attrs "alt"
  let title := jsGetAttribute attrs "title"
  if src = "" then ""
  else
    let absoluteUrl := resolveUrl src
    "![" ++ alt ++ "](" ++ absoluteUrl ++
      (if title ≠ "" then " \"" ++ title ++ "\"" else "") ++ ")"

/-! ## Fueled descendant traversals (`textContent`, `querySelector`) -/

mutual

/-- Model of reading `node.textContent`: the concatenation of all text
descendants.  Fueled because the source may be asked this on an arbitrary
object graph. -/
def textContentN (store : Store) : Nat → Nat → Option String
  | 0, _ => none
  | fuel + 1, id =>
    match store.get? id with
    | none => some ""
    | some (GNode.text s) => some s
    | some GNode.other => some ""
    | some (GNode.element _ _ cs) => textContentL store fuel cs

/-- `textContent` over a list of child references. -/
def textContentL (store : Store) : Nat → List Nat → Option String
  | 0, _ => none
  | _ + 1, [] => some ""
  | fuel + 1, id :: ids =>
    match textContentN store fuel id with
    | none => none
    | some s =>
      match textContentL store fuel ids with
      | none => none
      | some rest => some (s ++ rest)

end

mutual

/-- Model of `element.querySelector('code')` restricted to one node: the
first descendant (document order) whose tag name is `code`; `some none`
means "search finished, nothing found". -/
def findCodeN (store : Store) : Nat → Nat → Option (Option Nat)
  | 0, _ => none
  | fuel + 1, id =>
    match store.get? id with
    | some (GNode.element t _ cs) =>
      if lowerStr t = "code" then some (some id) else findCodeL store fuel cs
    | _ => some none

/-- First `code` descendant over a list of child references. -/
def findCodeL (store : Store) : Nat → List Nat → Option (Option Nat)
  | 0, _ => none
  | _ + 1, [] => some none
  | fuel + 1, id :: ids =>
    match findCodeN store fuel id with
    | none => none
    | some (some c) => some (some c)
    | some none => findCodeL store fuel ids

end

mutual

/-- Model of `table.querySelectorAll('tr')`, keeping for each collected row
the tag name of its parent element (the source inspects
`row.parentElement.tagName`). -/
def collectTRsN (store : Store) : Nat → String → Nat → Option (List (String × Nat))
  | 0, _, _ => none
  | fuel + 1, ptag, id =>
    match store.get? id with
    | some (GNode.element t _ cs) =>
      match collectTRsL store fuel t cs with
      | none => none
      | some sub => some ((if lowerStr t = "tr" then [(ptag, id)] else []) ++ sub)
    | _ => some []

/-- Row collection over a list of child references. -/
def collectTRsL (store : Store) : Nat → String → List Nat → Option (List (String × Nat))
  | 0, _, _ => none
  | _ + 1, _, [] => some []
  | fuel + 1, ptag, id :: ids =>
    match collectTRsN store fuel ptag id with
    | none => none
    | some first =>
      match collectTRsL store fuel ptag ids with
      | none => none
      | some rest => some (first ++ rest)

end

mutual

/-- Model of `row.querySelectorAll('th, td')`, keeping each cell's own tag
name (the source inspects `cells[0]?.tagName`). -/
def collectCellsN (store : Store) : Nat → Nat → Option (List (String × Nat))
  | 0, _ => none
  | fuel + 1, id =>
    match store.get? id with
    | some (GNode.element t _ cs) =>
      match collectCellsL store fuel cs with
      | none => none
      | some sub =>
        some ((if lowerStr t = "th" ∨ lowerStr t = "td" then [(t, id)] else []) ++ sub)
    | _ => some []

/-- Cell collection over a list of child references. -/
def collectCellsL (store : Store) : Nat → List Nat → Option (List (String × Nat))
  | 0, _ => none
  | _ + 1, [] => some []
  | fuel + 1, id :: ids =>
    match collectCellsN store fuel id with
    | none => none
    | some first =>
      match collectCellsL store fuel ids with
      | none => none
      | some rest => some (first ++ rest)

end

/-- Model of `HTMLToMarkdownParser.processCodeBlock` (source lines
328-348): the content is the `textContent` of the inner `code` element when
one exists, else of the `pre` element itself; the language hint comes from
the same element's class attribute; the preformatted flag is set and then
restored, so the state is returned unchanged. -/
def processCodeBlockG (opts : Options) (store : Store) :
    Nat → List (String × String) → List Nat → ConvState → Option (String × ConvState)
  | 0, _, _, _ => none
  | fuel + 1, attrs, cs, st =>
    match findCodeL store fuel cs with
    | none => none
    | some codeElt =>
      let contentOpt :=
        match codeElt with
        | some cid => textContentN store fuel cid
        | none => textContentL store fuel cs
      match contentOpt with
      | none => none
      | some content =>
        let langAttrs := match codeElt with
          | some cid => attrsOfId store cid
          | none => attrs
        let language := detectLanguage (jsGetAttribute langAttrs "class")
        if opts.codeBlockStyle = "fenced" then
          some ("\n\n```" ++ language ++ "\n" ++ content ++ "\n```\n\n", st)
        else
          let lines := (splitLines content).map (fun line => "    " ++ line)
          some ("\n\n" ++ joinWith "\n" lines ++ "\n\n", st)

/-! ## Column-width computation and table formatting (pure) -/

/-- The inner `row.forEach((cell, index) => widths[index] = max(...))` of
`formatTable`: update a width vector with one row's cell lengths. -/
def updWidths : List Nat → List String → List Nat
  | [], _ => []
  | w :: ws, [] => w :: ws
  | w :: ws, c :: restCells => Nat.max w c.length :: updWidths ws restCells

/-- Model of `Math.max(...tableData.map(row => row.length))` for a
non-empty table (the source guards emptiness before computing it). -/
def tableColumnCount (tableData : List (List String)) : Nat :=
  (tableData.map List.length).foldl Nat.max 0

/-- The column widths of `formatTable`: start every column at the minimum
width 3, then take the maximum cell length per column over all rows. -/
def tableColumnWidths (tableData : List (List String)) (columnCount : Nat) : List Nat :=
  tableData.foldl updWidths (List.replicate columnCount 3)

/-- One emitted table row of `formatTable`: a leading pipe, then for each
column index the (right-padded) cell followed by a pipe, then a newline. -/
def formatRowString (columnCount : Nat) (widths : List Nat) (row : List String) : String :=
  (List.range columnCount).foldl
    (fun acc i => acc ++ (jsPadEnd (row.getD i "") (widths.getD i 0) ++ " | ")) "| "
    ++ "\n"

/-- The separator row of `formatTable`: dashes repeated to each column's
width. -/
def formatSeparatorString (columnCount : Nat) (widths : List Nat) : String :=
  (List.range columnCount).foldl
    (fun acc i => acc ++ (strRepeat "-" (widths.getD i 0) ++ " | ")) "| "
    ++ "\n"

/-- Model of `HTMLToMarkdownParser.formatTable` (source lines 393-428). -/
def formatTable (tableData : List (List String)) (hasHeader : Bool) : String :=
  if tableData.isEmpty then ""
  else
    let columnCount := tableColumnCount tableData
    let widths := tableColumnWidths tableData columnCount
    let body :=
      (tableData.foldl
        (fun (acc : String × Nat) row =>
          (acc.1 ++ formatRowString columnCount widths row ++
            (if acc.2 = 0 ∧ hasHeader then formatSeparatorString columnCount widths else ""),
            acc.2 + 1))
        ("", 0)).1
    "\n\n" ++ body ++ "\n"

/-! ## The recursive traversal engine -/

mutual

/-- Model of `HTMLToMarkdownParser.processNode` (source lines 59-74): text
nodes are escaped, element nodes dispatched, other node kinds ignored; a
null reference yields the empty string. -/
def processNodeG (opts : Options) (store : Store) :
    Nat → Nat → ConvState → Option (String × ConvState)
  | 0, _, _ => none
  | fuel + 1, id, st =>
    match store.get? id with
    | none => some ("", st)
    | some (GNode.text c) => some (processTextNode opts st c, st)
    | some GNode.other => some ("", st)
    | some (GNode.element tag attrs cs) =>
      processElementNodeG opts store fuel tag attrs cs st

/-- Model of `HTMLToMarkdownParser.processElementNode` together with the
`elementHandlers` table (source lines 115-183): dispatch on the lower-cased
tag name, unknown tags falling through to rendering the children. -/
def processElementNodeG (opts : Options) (store : Store) :
    Nat → String → List (String × String) → List Nat → ConvState →
      Option (String × ConvState)
  | 0, _, _, _, _ => none
  | fuel + 1, tag, attrs, cs, st =>
    match lowerStr tag with
    | "h1" => processHeadingG opts store fuel cs 1 st
    | "h2" => processHeadingG opts store fuel cs 2 st
    | "h3" => processHeadingG opts store fuel cs 3 st
    | "h4" => processHeadingG opts store fuel cs 4 st
    | "h5" => processHeadingG opts store fuel cs 5 st
    | "h6" => processHeadingG opts store fuel cs 6 st
    | "p" =>
      match processChildrenG opts store fuel cs st with
      | none => none
      | some (c, st1) =>
        let content := jsTrim c
        some (if content ≠ "" then "\n\n" ++ content ++ "\n\n" else "", st1)
    | "br" => some ("  \n", st)
    | "ul" => processListG opts store fuel cs "unordered" st
    | "ol" => processListG opts store fuel cs "ordered" st
    | "li" => processListItemG opts store fuel cs st
    | "strong" => processEmphasisG opts store fuel cs "strong" st
    | "b" => processEmphasisG opts store fuel cs "strong" st
    | "em" => processEmphasisG opts store fuel cs "em" st
    | "i" => processEmphasisG opts store fuel cs "em" st
    | "a" => processLinkG opts store fuel attrs cs st
    | "img" => some (processImage attrs, st)
    | "code" =>
      match textContentL store fuel cs with
      | none => none
      | some code => some (processInlineCode code, st)
    | "pre" => processCodeBlockG opts store fuel attrs cs st
    | "blockquote" => processBlockquoteG opts store fuel cs st
    | "table" => processTableG opts store fuel tag cs st
    | "thead" => processChildrenG opts store fuel cs st
    | "tbody" => processChildrenG opts store fuel cs st
    | "tr" => processChildrenG opts store fuel cs st
    | "th" => processChildrenG opts store fuel cs st
    | "td" => processChildrenG opts store fuel cs st
    | "hr" => some ("\n\n---\n\n", st)
    | "dl" =>
      match processChildrenG opts store fuel cs st with
      | none => none
      | some (c, st1) => some ("\n\n" ++ jsTrim c ++ "\n\n", st1)
    | "dt" =>
      match processChildrenG opts store fuel cs st with
      | none => none
      | some (c, st1) => some ("\n\n**" ++ jsTrim c ++ "**\n", st1)
    | "dd" =>
      match processChildrenG opts store fuel cs st with
      | none => none
      | some (c, st1) => some (": " ++ jsTrim c ++ "\n", st1)
    | _ => processChildrenG opts store fuel cs st

/-- Model of `HTMLToMarkdownParser.processChildren` (source lines 188-192):
render the children in source order and concatenate, threading the mutable
state left to right. -/
def processChildrenG (opts : Options) (store : Store) :
    Nat → List Nat → ConvState → Option (String × ConvState)
  | 0, _, _ => none
  | _ + 1, [], st => some ("", st)
  | fuel + 1, id :: ids, st =>
    match processNodeG opts store fuel id st with
    | none => none
    | some (s, st1) =>
      match processChildrenG opts store fuel ids st1 with
      | none => none
      | some (rest, st2) => some (s ++ rest, st2)

/-- Model of `HTMLToMarkdownParser.processHeading` (source lines 197-214):
empty trimmed content is suppressed; ATX style always; setext style
underlines levels 1 and 2 and falls back to ATX for levels 3-6. -/
def processHeadingG (opts : Options) (store : Store) :
    Nat → List Nat → Nat → ConvState → Option (String × ConvState)
  | 0, _, _, _ => none
  | fuel + 1, cs, level, st =>
    match processChildrenG opts store fuel cs st with
    | none => none
    | some (c, st1) =>
      let content := jsTrim c
      if content = "" then some ("", st1)
      else if opts.headingStyle = "atx" then
        some ("\n\n" ++ strRepeat "#" level ++ " " ++ content ++ "\n\n", st1)
      else if level = 1 then
        some ("\n\n" ++ content ++ "\n" ++ strRepeat "=" content.length ++ "\n\n", st1)
      else if level = 2 then
        some ("\n\n" ++ content ++ "\n" ++ strRepeat "-" content.length ++ "\n\n", st1)
      else
        some ("\n\n" ++ strRepeat "#" level ++ " " ++ content ++ "\n\n", st1)

/-- Model of `HTMLToMarkdownParser.processList` (source lines 219-229):
push a frame, render the children, pop, and add blank-line spacing only
around top-level lists. -/
def processListG (opts : Options) (store : Store) :
    Nat → List Nat → String → ConvState → Option (String × ConvState)
  | 0, _, _, _ => none
  | fuel + 1, cs, listType, st =>
    let st1 := { st with listStack := ⟨listType, 0⟩ :: st.listStack }
    match processChildrenG opts store fuel cs st1 with
    | none => none
    | some (content, st2) =>
      let st3 := { st2 with listStack := st2.listStack.tail }
      if st3.listStack.length = 0 then some ("\n\n" ++ jsTrim content ++ "\n\n", st3)
      else some ("\n" ++ content, st3)

/-- Model of `HTMLToMarkdownParser.processListItem` (source lines 234-258).
With an empty list stack the source dereferences `undefined` and throws;
that crash is modelled as an absent result. -/
def processListItemG (opts : Options) (store : Store) :
    Nat → List Nat → ConvState → Option (String × ConvState)
  | 0, _, _ => none
  | fuel + 1, cs, st =>
    match st.listStack with
    | [] => none
    | listInfo :: restStack =>
      let depth := st.listStack.length - 1
      let indent := strRepeat "  " depth
      let updated :=
        if listInfo.type = "ordered" then { listInfo with counter := listInfo.counter + 1 }
        else listInfo
      let marker :=
        if listInfo.type = "ordered" then natToDec updated.counter ++ ". "
        else opts.bulletListMarker ++ " "
      let st1 := { st with listStack := updated :: restStack }
      match processChildrenG opts store fuel cs st1 with
      | none => none
      | some (c, st2) =>
        let content := jsTrim c
        let lines := splitLines content
        let firstLine := lines.headD ""
        let remainingLines := joinWith "\n"
          ((lines.drop 1).map
            (fun line => if jsTrim line ≠ "" then indent ++ "  " ++ line else ""))
        let result := indent ++ marker ++ firstLine
        some (result ++ (if remainingLines ≠ "" then "\n" ++ remainingLines else "") ++ "\n",
          st2)

/-- Model of `HTMLToMarkdownParser.processEmphasis` (source lines 264-270):
empty trimmed content renders as the empty string. -/
def processEmphasisG (opts : Options) (store : Store) :
    Nat → List Nat → String → ConvState → Option (String × ConvState)
  | 0, _, _, _ => none
  | fuel + 1, cs, emphType, st =>
    match processChildrenG opts store fuel cs st with
    | none => none
    | some (c, st1) =>
      let content := jsTrim c
      if content = "" then some ("", st1)
      else
        let delim := if emphType = "strong" then opts.strongDelimiter else opts.emDelimiter
        some (delim ++ content ++ delim, st1)

/-- Model of `HTMLToMarkdownParser.processLink` (source lines 275-292).
The DOM `href` property mirrors the attribute (the tree model has no base
URI), so `element.href || element.getAttribute('href') || ''` is the
attribute value with `''` default. -/
def processLinkG (opts : Options) (store : Store) :
    Nat → List (String × String) → List Nat → ConvState → Option (String × ConvState)
  | 0, _, _, _ => none
  | fuel + 1, attrs, cs, st =>
    let href := jsGetAttribute attrs "href"
    match processChildrenG opts store fuel cs st with
    | none => none
    | some (t, st1) =>
      let text := if jsTrim t ≠ "" then jsTrim t else href
      if href = "" then some (text, st1)
      else
        let absoluteUrl := resolveUrl href
        if opts.linkStyle = "inline" then
          some ("[" ++ text ++ "](" ++ absoluteUrl ++ ")", st1)
        else
          let newId := st1.referenceCounter + 1
          some ("[" ++ text ++ "][" ++ natToDec newId ++ "]",
            { st1 with
              referenceCounter := newId
              references := st1.references ++ [(newId, absoluteUrl)] })

/-- Model of `HTMLToMarkdownParser.processBlockquote` (source lines
353-364): increment the depth, render the children, decrement, then put a
marker run of length depth+1 in front of every line, blank lines carrying
the marker trimmed of its trailing space. -/
def processBlockquoteG (opts : Options) (store : Store) :
    Nat → List Nat → ConvState → Option (String × ConvState)
  | 0, _, _ => none
  | fuel + 1, cs, st =>
    let st1 := { st with blockquoteDepth := st.blockquoteDepth + 1 }
    match processChildrenG opts store fuel cs st1 with
    | none => none
    | some (c, st2) =>
      let st3 := { st2 with blockquoteDepth := st2.blockquoteDepth - 1 }
      let pfx := strRepeat "> " (st3.blockquoteDepth + 1)
      let lines := (splitLines (jsTrim c)).map
        (fun line => if jsTrim line ≠ "" then pfx ++ line else trimRightStr pfx)
      some ("\n\n" ++ joinWith "\n" lines ++ "\n\n", st3)

/-- Model of `HTMLToMarkdownParser.processTable` (source lines 369-388):
collect all descendant rows, render each row's cells, record whether any
row sits in a `THEAD` or starts with a `TH` cell, and delegate to
`formatTable`. -/
def processTableG (opts : Options) (store : Store) :
    Nat → String → List Nat → ConvState → Option (String × ConvState)
  | 0, _, _, _ => none
  | fuel + 1, tag, cs, st =>
    match collectTRsL store fuel tag cs with
    | none => none
    | some rows =>
      if rows.isEmpty then some ("", st)
      else
        match processRowsG opts store fuel rows st with
        | none => none
        | some (tableData, hasHeader, st1) =>
          some (formatTable tableData hasHeader, st1)

/-- The `rows.forEach` loop of `processTable`: produce the rendered cell
matrix and the header flag. -/
def processRowsG (opts : Options) (store : Store) :
    Nat → List (String × Nat) → ConvState →
      Option (List (List String) × Bool × ConvState)
  | 0, _, _ => none
  | _ + 1, [], st => some ([], false, st)
  | fuel + 1, (ptag, trId) :: rest, st =>
    match collectCellsL store fuel (childIdsOf store trId) with
    | none => none
    | some cells =>
      match processCellsG opts store fuel cells st with
      | none => none
      | some (rowData, st1) =>
        let rowHeader :=
          (ptag == "THEAD") ||
            (match cells.head? with
             | some (ctag, _) => ctag == "TH"
             | none => false)
        match processRowsG opts store fuel rest st1 with
        | none => none
        | some (restData, restHeader, st2) =>
          some (rowData :: restData, rowHeader || restHeader, st2)

/-- The `cells.map(cell => this.processChildren(cell).trim())` loop of
`processTable`. -/
def processCellsG (opts : Options) (store : Store) :
    Nat → List (String × Nat) → ConvState → Option (List String × ConvState)
  | 0, _, _ => none
  | _ + 1, [], st => some ([], st)
  | fuel + 1, (_, cid) :: rest, st =>
    match processChildrenG opts store fuel (childIdsOf store cid) st with
    | none => none
    | some (s, st1) =>
      match processCellsG opts store fuel rest st1 with
      | none => none
      | some (restCells, st2) => some (jsTrim s :: restCells, st2)

end

/-- Model of `HTMLToMarkdownParser.convert` (source lines 32-54): reset the
state, render the root, trim, and append the reference definitions when
reference-style links are configured and any were registered. -/
def convertG (opts : Options) (store : Store) (fuel : Nat) (id : Nat) : Option String :=
  match processNodeG opts store fuel id initState with
  | none => none
  | some (markdown, st) =>
    let md := jsTrim markdown
    if opts.linkStyle = "reference" ∧ st.references ≠ [] then
      some (md ++ "\n\n" ++ joinWith "\n"
        (st.references.map (fun r => "[" ++ natToDec r.1 ++ "]: " ++ r.2)))
    else some md

/-! ## The performance layer (`src/unnamed/part_001`) -/

/-- The `PerformanceOptimizedParser` options (part_001 lines 8-14); the
spread hands the same object to the inner `HTMLToMarkdownParser`, modelled
by extending `Options`. -/
structure PerfOptions extends Options where
  chunkSize : Nat := 1000
  cacheSize : Nat := 100
  streamingMode : Bool := false
deriving DecidableEq, Repr

/-- The defaulted performance options. -/
def defaultPerfOptions : PerfOptions := {}

/-- Truncation of a JavaScript number to a signed 32-bit integer, as the
bitwise operators do. -/
def toInt32 (n : Int) : Int := (n + 2 ^ 31) % 2 ^ 32 - 2 ^ 31

/-- Model of `PerformanceOptimizedParser.simpleHash` (part_001 lines
221-229) up to the base-36 rendering: `hash = ((hash << 5) - hash) + char`
followed by the 32-bit truncation `hash = hash & hash`.  The inputs here
are ASCII, where `charCodeAt` is the code point. -/
def simpleHash (s : String) : Int :=
  s.data.foldl (fun h c => toInt32 (toInt32 (h * 32) - h + c.toNat)) 0

/-- A base-36 digit as JavaScript renders it (0-9 then a-z). -/
def digit36 (n : Nat) : Char :=
  if n < 10 then Char.ofNat (48 + n) else Char.ofNat (87 + n)

/-- Base-36 digits of a natural number, most significant first; the first
argument is fuel (passing the number itself is always enough). -/
def natToB36 : Nat → Nat → List Char
  | 0, _ => []
  | _ + 1, 0 => []
  | fuel + 1, n => natToB36 fuel (n / 36) ++ [digit36 (n % 36)]

/-- Model of `Number.prototype.toString(36)` on a 32-bit integer. -/
def jsToString36 (i : Int) : String :=
  if i = 0 then "0"
  else
    let m := i.natAbs
    if i < 0 then "-" ++ ⟨natToB36 m m⟩ else ⟨natToB36 m m⟩

/-- Model of `PerformanceOptimizedParser.generateCacheKey` (part_001 lines
201-216): the tag name, a hash of the first 100 characters of the text
content, and the tag sequence of the element children. -/
def generateCacheKeyG (store : Store) (fuel : Nat) (id : Nat) : Option String :=
  let tagStr :=
    match store.get? id with
    | some (GNode.element t _ _) => t
    | _ => "undefined"
  match textContentN store fuel id with
  | none => none
  | some text =>
    let childTags := joinWith ","
      ((childIdsOf store id).filterMap (fun c =>
        match store.get? c with
        | some (GNode.element t _ _) => some t
        | _ => none))
    some (tagStr ++ ":" ++ jsToString36 (simpleHash (strTake text 100)) ++ ":" ++ childTags)

/-- Model of class `LRUCache` (part_001 lines 321-350).  The entry list is
in JavaScript `Map` iteration order: front = oldest insertion. -/
structure LRUCache where
  maxSize : Nat
  cache : List (String × String) := []
deriving DecidableEq, Repr

/-- Lookup in `Map` entries. -/
def mapLookup (entries : List (String × String)) (k : String) : Option String :=
  ((entries.find? (fun e => e.1 = k)).map (fun e => e.2))

/-- Model of `Map.prototype.set`: update in place when the key exists
(keeping its position), else append at the end. -/
def jsMapSet (entries : List (String × String)) (k v : String) :
    List (String × String) :=
  if (entries.find? (fun e => e.1 = k)).isSome then
    entries.map (fun e => if e.1 = k then (k, v) else e)
  else entries ++ [(k, v)]

/-- Model of `LRUCache.get` (part_001 lines 327-335): a present key is
deleted and re-inserted at the end, marking it most recently used. -/
def lruGet (c : LRUCache) (k : String) : Option String × LRUCache :=
  match mapLookup c.cache k with
  | none => (none, c)
  | some v =>
    (some v, { c with cache := (c.cache.eraseP (fun e => e.1 == k)) ++ [(k, v)] })

/-- Model of `LRUCache.set` (part_001 lines 337-345): at or above capacity
the first key in iteration order is deleted (on an empty map the delete of
`undefined` is a no-op), then the entry is set. -/
def lruSet (c : LRUCache) (k v : String) : LRUCache :=
  let base :=
    if c.cache.length ≥ c.maxSize then
      match c.cache with
      | [] => ([] : List (String × String))
      | _ :: rest => rest
    else c.cache
  { c with cache := jsMapSet base k v }

/-- Model of `PerformanceOptimizedParser.convertWithCache` (part_001 lines
176-196).  Note the source tests the cached value with `if (cached)`, so an
empty cached string behaves as a miss (after its `get` already refreshed
recency). -/
def convertWithCacheG (popts : PerfOptions) (store : Store) (fuel : Nat) (id : Nat)
    (cache : LRUCache) : Option (String × LRUCache) :=
  match generateCacheKeyG store fuel id with
  | none => none
  | some key =>
    let afterGet := lruGet cache key
    let missPath := fun (c1 : LRUCache) =>
      match convertG popts.toOptions store fuel id with
      | none => none
      | some result => some (result, lruSet c1 key result)
    match afterGet with
    | (some cached, c1) => if cached ≠ "" then some (cached, c1) else missPath c1
    | (none, c1) => missPath c1

/-- Model of `PerformanceOptimizedParser.createNodeStream` (part_001 lines
87-111): breadth-first traversal from the root, buffering nodes and
yielding a buffer whenever it reaches the chunk size, plus a final partial
buffer. -/
def createNodeStreamG (store : Store) (chunkSize : Nat) :
    Nat → List Nat → List Nat → Option (List (List Nat))
  | 0, _, _ => none
  | _ + 1, [], buffer => some (if buffer.isEmpty then [] else [buffer])
  | fuel + 1, id :: queue, buffer =>
    let buffer1 := buffer ++ [id]
    let queue1 := queue ++ childIdsOf store id
    if buffer1.length ≥ chunkSize then
      match createNodeStreamG store chunkSize fuel queue1 [] with
      | none => none
      | some rest => some (buffer1 :: rest)
    else createNodeStreamG store chunkSize fuel queue1 buffer1

/-- Model of `PerformanceOptimizedParser.processChunk` (part_001 lines
161-171): the buffered nodes are deep-cloned into a fresh `div` container
which is then converted through the cache.  A deep clone is structurally
identical to its original and rendering depends only on structure, so the
container's children are modelled as the original references; the container
itself is a fresh node appended to the store. -/
def processChunkG (popts : PerfOptions) (store : Store) (fuel : Nat)
    (buffer : List Nat) (cache : LRUCache) : Option (String × LRUCache) :=
  let store1 := store ++ [GNode.element "DIV" [] buffer]
  convertWithCacheG popts store1 fuel store.length cache

/-- The `for await (const chunk of stream)` loop of `streamingConvert`:
process each buffer in order, threading the parser's cache, and collect the
chunk strings. -/
def streamChunksG (popts : PerfOptions) (store : Store) (fuel : Nat) :
    List (List Nat) → LRUCache → Option (List String)
  | [], _ => some []
  | b :: bs, cache =>
    match processChunkG popts store fuel b cache with
    | none => none
    | some (s, cache1) =>
      match streamChunksG popts store fuel bs cache1 with
      | none => none
      | some rest => some (s :: rest)

/-- Model of `PerformanceOptimizedParser.streamingConvert` (part_001 lines
70-82): the fragment sequence produced by streaming-mode conversion, on a
parser whose cache starts empty. -/
def streamingFragmentsG (popts : PerfOptions) (store : Store) (fuel : Nat)
    (rootId : Nat) : Option (List String) :=
  match createNodeStreamG store popts.chunkSize fuel [rootId] [] with
  | none => none
  | some buffers =>
    streamChunksG popts store fuel buffers { maxSize := popts.cacheSize }

/-- The single string returned by `streamingConvert`: `chunks.join('')`. -/
def streamingConvertG (popts : PerfOptions) (store : Store) (fuel : Nat)
    (rootId : Nat) : Option String :=
  (streamingFragmentsG popts store fuel rootId).map String.join

/-- The direct (single-pass) mode of `convertOptimized` (part_001 lines
41-45): `convertWithCache(element)` on a parser whose cache starts
empty. -/
def directConvertG (popts : PerfOptions) (store : Store) (fuel : Nat)
    (rootId : Nat) : Option String :=
  (convertWithCacheG popts store fuel rootId { maxSize := popts.cacheSize }).map
    (fun r => r.1)

/-! ## Claim-side definitions (written from the spec's words, for
comparison against the source-derived definitions above) -/

/-- Written from claim C5's words: re-parse escaped output as literal text
by stripping a single leading backslash from each escaped character;
characters not forming such an escape pass through. -/
def stripEscList : List Char → List Char
  | [] => []
  | [c] => [c]
  | a :: b :: rest =>
    if a = '\\' ∧ b ∈ escapeChars then b :: stripEscList rest
    else a :: stripEscList (b :: rest)

/-- String version of `stripEscList`. -/
def stripOneEscape (s : String) : String := ⟨stripEscList s.data⟩

/-- Decimal parsing of an all-digit attribute value, on the character
list. -/
def specParseNat (s : String) : Option Nat :=
  if s.data ≠ [] ∧ s.data.all (fun c => '0' ≤ c ∧ c ≤ '9') then
    some (s.data.foldl (fun acc c => acc * 10 + (c.toNat - 48)) 0)
  else none

/-- Written from claim C4's words: the colspan of a cell, a missing or
unparsable attribute counting as 1. -/
def specColspanOf (attrs : List (String × String)) : Nat :=
  (specParseNat (jsGetAttribute attrs "colspan")).getD 1

/-- Written from claim C4's words: the span-normalized column count of one
collected row — a cell with colspan N counts as N adjacent cells. -/
def specRowColumns (store : Store) (fuel : Nat) (trId : Nat) : Option Nat :=
  match collectCellsL store fuel (childIdsOf store trId) with
  | none => none
  | some cells =>
    some (cells.foldl (fun acc cell => acc + specColspanOf (attrsOfId store cell.2)) 0)

/-- Written from claim C4's words: the maximum column count across all
span-normalized rows of a table element. -/
def specSpanNormalizedMaxColumns (store : Store) (fuel : Nat) (tag : String)
    (cs : List Nat) : Option Nat :=
  match collectTRsL store fuel tag cs with
  | none => none
  | some rows =>
    rows.foldl
      (fun acc row =>
        match acc, specRowColumns store fuel row.2 with
        | some a, some b => some (Nat.max a b)
        | _, _ => none)
      (some 0)

/-- Written from claim C4's words: the emitted body is one pipe-delimited
line per row with the dash separator line immediately after the first row
when a header is present. -/
def rowsWithSeparator (rows : List String) (hasHeader : Bool) (sep : String) : String :=
  match rows with
  | [] => ""
  | r :: rest => r ++ (if hasHeader then sep else "") ++ String.join rest

/-- Divergence of `convert` on a given root: no amount of fuel produces a
result, i.e. the source recursion never returns. -/
def convertDivergesAt (opts : Options) (store : Store) (id : Nat) : Prop :=
  ∀ fuel, convertG opts store fuel id = none

/-! ## Concrete stores used by witnesses and counterexamples -/

/-- A one-node object graph whose element is its own child: a node that is
its own descendant. -/
def cycStore : Store := [GNode.element "DIV" [] [0]]

/-- A two-node document: a container holding the text `hi`. -/
def streamStore : Store := [GNode.element "DIV" [] [1], GNode.text "hi"]

/-- Two structurally different subtrees with the same cache fingerprint:
node 0 is `<div><b>ab</b></div>`, node 3 is `<div><b>a</b>b</div>`; both
have tag `DIV`, text content `ab` and element-child tag sequence `B`. -/
def collideStore : Store :=
  [GNode.element "DIV" [] [1], GNode.element "B" [] [2], GNode.text "ab",
   GNode.element "DIV" [] [4, 6], GNode.element "B" [] [5], GNode.text "a",
   GNode.text "b"]

/-- A table whose first row is a single `colspan=3` header cell and whose
second row has two plain cells. -/
def spanTableStore : Store :=
  [GNode.element "TABLE" [] [1, 4],
   GNode.element "TR" [] [2],
   GNode.element "TH" [("colspan", "3")] [3],
   GNode.text "A",
   GNode.element "TR" [] [5, 7],
   GNode.element "TD" [] [6],
   GNode.text "C",
   GNode.element "TD" [] [8],
   GNode.text "D"]

/-- An inline-code node whose text contains a double backtick run. -/
def doubleTickStore : Store := [GNode.element "CODE" [] [1], GNode.text "a``b"]

/-- An inline-code node whose text contains a single backtick only. -/
def singleTickStore : Store := [GNode.element "CODE" [] [1], GNode.text "x`y"]

/-- A nested block quote: `<blockquote>a<blockquote>b</blockquote></blockquote>`. -/
def nestedQuoteStore : Store :=
  [GNode.element "BLOCKQUOTE" [] [1, 2], GNode.text "a",
   GNode.element "BLOCKQUOTE" [] [3], GNode.text "b"]

/-- A level-2 heading with text content. -/
def h2Store : Store := [GNode.element "H2" [] [1], GNode.text "Hi"]

/-- A link with no `href` attribute and non-empty child text. -/
def noHrefLinkStore : Store := [GNode.element "A" [] [1], GNode.text "click"]

/-- A link with an `href` attribute and no child content. -/
def bareHrefLinkStore : Store := [GNode.element "A" [("href", "/x")] []]

/-- The options object with the setext heading style selected. -/
def setextOptions : Options := { headingStyle := "setext" }

/-! ## Helper lemmas -/

theorem backslash_mem_escapeChars : '\\' ∈ escapeChars := by decide

theorem stripEscList_cons_esc (c : Char) (l : List Char) (hc : c ∈ escapeChars) :
    stripEscList ('\\' :: c :: l) = c :: stripEscList l := by
  simp [stripEscList, hc]

theorem stripEscList_cons_ne (c : Char) (l : List Char) (hc : c ∉ escapeChars) :
    stripEscList (c :: l) = c :: stripEscList l := by
  cases l with
  | nil => rfl
  | cons b rest =>
    have hcb : ¬(c = '\\' ∧ b ∈ escapeChars) := by
      rintro ⟨h1, _⟩
      exact hc (h1 ▸ backslash_mem_escapeChars)
    simp [stripEscList, hcb]

theorem strip_escape_list (l : List Char) : stripEscList (escapeList l) = l := by
  induction l with
  | nil => rfl
  | cons c cs ih =>
    by_cases hc : c ∈ escapeChars
    · simp only [escapeList, if_pos hc]
      rw [stripEscList_cons_esc c _ hc, ih]
    · simp only [escapeList, if_neg hc]
      rw [stripEscList_cons_ne c _ hc, ih]

/-- Divergence of the traversal on the self-referential store, stated for
all three mutually recursive entry points so that fuel induction goes
through. -/
theorem cycStore_traversal_none (fuel : Nat) :
    ∀ (opts : Options) (st : ConvState),
      processNodeG opts cycStore fuel 0 st = none ∧
      processElementNodeG opts cycStore fuel "DIV" [] [0] st = none ∧
      processChildrenG opts cycStore fuel [0] st = none := by
  induction fuel with
  | zero => exact fun opts st => ⟨rfl, rfl, rfl⟩
  | succ f ih =>
    intro opts st
    refine ⟨(ih opts st).2.1, (ih opts st).2.2, ?_⟩
    show (match processNodeG opts cycStore f 0 st with
      | none => none
      | some (s, st1) =>
        match processChildrenG opts cycStore f [] st1 with
        | none => none
        | some (rest, st2) => some (s ++ rest, st2)) = none
    rw [(ih opts st).1]

/-! ## C5: escaping round-trips -/

/-- Claim C5 (confirmed): for every normal-text input string, stripping a
single leading backslash from each escaped character in the output of the
escaping function reproduces the original input string exactly.  Normal
text is the non-preformatted state, in which `escapeMarkdown` escapes. -/
theorem C5_escape_roundtrip (s : String) :
    stripOneEscape (escapeMarkdown false s) = s := by
  show stripOneEscape ⟨escapeList s.data⟩ = s
  show (⟨stripEscList (escapeList s.data)⟩ : String) = s
  rw [strip_escape_list]

/-! ## C2: cycle handling -/

/-- Claim C2 (counterexample): on the tree whose root element is its own
child — a node that is its own descendant — `convert` does not fail with a
StructuralError before traversal: the source has no cycle detection and no
StructuralError at all, and the conversion never produces any outcome, for
any fuel bound on the recursion. -/
theorem C2_counterexample : convertDivergesAt defaultOptions cycStore 0 := by
  intro fuel
  unfold convertG
  rw [(cycStore_traversal_none fuel defaultOptions initState).1]

/-- Claim C2 (amended): for an input tree containing a node that is its own
descendant, conversion recurses forever instead of failing with a
StructuralError: under every option set, every traversal state and every
fuel bound, neither the node traversal nor the whole `convert` call
produces a result, so no output — and no error value — is ever returned. -/
theorem C2_amended (opts : Options) (st : ConvState) (fuel : Nat) :
    processNodeG opts cycStore fuel 0 st = none ∧
    convertG opts cycStore fuel 0 = none := by
  refine ⟨(cycStore_traversal_none fuel opts st).1, ?_⟩
  unfold convertG
  rw [(cycStore_traversal_none fuel opts initState).1]

/-! ## C7: inline-code backtick wrapping -/

theorem strRepeat_tick_one : strRepeat "`" 1 = "`" := by decide

theorem strRepeat_tick_two : strRepeat "`" 2 = "``" := by decide

/-- Claim C7 (counterexample): for the inline-code node with content
containing a double backtick, the source emits a two-backtick wrapper even
though that run occurs verbatim inside the content, and both candidate runs
(one and two backticks) occur inside the content, so no wrapper of one or
two backticks can satisfy the claimed minimality property at all. -/
theorem C7_counterexample :
    convertG defaultOptions doubleTickStore 5 0 = some ("``" ++ "a``b" ++ "``") ∧
    strHasSub "a``b" "``" = true ∧ strHasSub "a``b" "`" = true := by
  exact ⟨by decide, by decide, by decide⟩

/-- Claim C7 (amended): for every inline-code node whose content does not
contain a double-backtick run, the rendered output wraps the content in the
minimum run of backticks (one or two) such that that run does not occur
verbatim inside the content. -/
theorem C7_amended (opts : Options) (store : Store) (fuel id : Nat) (tag : String)
    (attrs : List (String × String)) (cs : List Nat) (st : ConvState) (code : String)
    (hget : store.get? id = some (GNode.element tag attrs cs))
    (htag : lowerStr tag = "code")
    (hcode : textContentL store fuel cs = some code)
    (hnd : strHasSub code "``" = false) :
    ∃ n, (n = 1 ∨ n = 2) ∧
      processNodeG opts store (fuel + 2) id st =
        some (strRepeat "`" n ++ code ++ strRepeat "`" n, st) ∧
      strHasSub code (strRepeat "`" n) = false ∧
      (∀ m, 1 ≤ m → m < n → strHasSub code (strRepeat "`" m) = true) := by
  have hstep : processNodeG opts store (fuel + 2) id st =
      some (processInlineCode code, st) := by
    simp only [processNodeG, processElementNodeG, hget, htag, hcode]
  by_cases h1 : strHasSub code "`" = true
  · refine ⟨2, Or.inr rfl, ?_, ?_, ?_⟩
    · rw [hstep, strRepeat_tick_two]
      unfold processInlineCode
      rw [h1]
      rfl
    · rw [strRepeat_tick_two]
      exact hnd
    · intro m hm1 hm2
      have hm : m = 1 := by omega
      rw [hm, strRepeat_tick_one]
      exact h1
  · have h1f : strHasSub code "`" = false := by
      cases hx : strHasSub code "`" with
      | false => rfl
      | true => exact absurd hx h1
    refine ⟨1, Or.inl rfl, ?_, ?_, ?_⟩
    · rw [hstep, strRepeat_tick_one]
      unfold processInlineCode
      rw [h1f]
      rfl
    · rw [strRepeat_tick_one]
      exact h1f
    · intro m hm1 hm2
      exact absurd (hm1.trans_lt hm2) (lt_irrefl 1)

/-- Witness for C7's amended theorem at a concrete inline-code node whose
content holds a single backtick, where the two-backtick wrapper is indeed
the minimum non-occurring run. -/
theorem C7_witness :
    ∃ n, (n = 1 ∨ n = 2) ∧
      processNodeG defaultOptions singleTickStore 5 0 initState =
        some (strRepeat "`" n ++ "x`y" ++ strRepeat "`" n, initState) ∧
      strHasSub "x`y" (strRepeat "`" n) = false ∧
      (∀ m, 1 ≤ m → m < n → strHasSub "x`y" (strRepeat "`" m) = true) := by
  exact C7_amended defaultOptions singleTickStore 3 0 "CODE" [] [1] initState "x`y"
    (by decide) (by decide) (by decide) (by decide)

/-! ## C8: block-quote line prefixing -/

theorem strRepeat_quote_one : strRepeat "> " 1 = "> " := by decide

theorem trimRight_quote : trimRightStr "> " = ">" := by decide

/-- Claim C8 (counterexample): for the nested block quote
`<blockquote>a<blockquote>b</blockquote></blockquote>` the inner quote's
content line is emitted with three markers, not the two its nesting depth
prescribes: the inner quote first prefixes its own line with two markers
(its restored depth plus one) and the outer quote then prefixes every line
of its children's output once more.  No emitted line carries exactly two
markers. -/
theorem C8_counterexample :
    convertG defaultOptions nestedQuoteStore 20 0 = some "> a\n>\n> > > b" ∧
    splitLines "> a\n>\n> > > b" = ["> a", ">", "> > > b"] ∧
    "> > b" ∉ ["> a", ">", "> > > b"] := by
  exact ⟨by decide, by decide, by decide⟩

/-- Claim C8 (amended): for a block-quote node that is not nested inside
another block quote (entered at depth 0), each line of its rendered output
is prefixed with exactly one occurrence of the quote marker, and blank
lines carry the marker trimmed of its trailing space; for nested quotes the
source stacks one extra prefix per enclosing level on top of the inner
node's own markers, so their lines carry more markers than their depth. -/
theorem C8_amended (opts : Options) (store : Store) (fuel id : Nat) (tag : String)
    (attrs : List (String × String)) (cs : List Nat) (st : ConvState)
    (c : String) (st2 : ConvState)
    (hget : store.get? id = some (GNode.element tag attrs cs))
    (htag : lowerStr tag = "blockquote")
    (hd0 : st.blockquoteDepth = 0)
    (hch : processChildrenG opts store fuel cs
      { st with blockquoteDepth := st.blockquoteDepth + 1 } = some (c, st2))
    (hd2 : st2.blockquoteDepth = 1) :
    processNodeG opts store (fuel + 3) id st =
      some ("\n\n" ++ joinWith "\n"
          ((splitLines (jsTrim c)).map
            (fun line => if jsTrim line ≠ "" then "> " ++ line else ">"))
        ++ "\n\n", { st2 with blockquoteDepth := 0 }) := by
  simp only [processNodeG, processElementNodeG, processBlockquoteG, hget, htag, hch, hd2]
  rw [show (1 : Nat) - 1 + 1 = 1 from rfl, strRepeat_quote_one, trimRight_quote]

/-- Witness for C8's amended theorem: the inner block-quote node of the
nested store, converted on its own from depth 0, prefixes its single line
with exactly one marker. -/
theorem C8_witness :
    processNodeG defaultOptions nestedQuoteStore 6 2 initState =
      some ("\n\n> b\n\n", initState) := by
  exact (C8_amended defaultOptions nestedQuoteStore 3 2 "BLOCKQUOTE" [] [3] initState
    "b" { initState with blockquoteDepth := 1 }
    (by decide) (by decide) (by decide) (by decide) (by decide)).trans (by decide)

/-! ## C6: setext heading rendering -/

/-- Claim C6 (confirmed): for every heading node rendered (non-empty
trimmed content) in setext heading style, levels 1 and 2 are underlined
with `=` or `-` respectively, the underline length equal to the trimmed
content length, and levels 3 through 6 are rendered in ATX style (`#`
repeated level times) even though setext mode is configured. -/
theorem C6_setext_heading (opts : Options) (store : Store) (fuel id : Nat)
    (tag : String) (attrs : List (String × String)) (cs : List Nat)
    (st : ConvState) (c : String) (st1 : ConvState) (level : Nat)
    (hset : opts.headingStyle = "setext")
    (hget : store.get? id = some (GNode.element tag attrs cs))
    (hlevel : 1 ≤ level ∧ level ≤ 6)
    (htag : lowerStr tag = "h" ++ natToDec level)
    (hch : processChildrenG opts store fuel cs st = some (c, st1))
    (hne : jsTrim c ≠ "") :
    processNodeG opts store (fuel + 3) id st =
      some ((if level = 1 then
          "\n\n" ++ jsTrim c ++ "\n" ++ strRepeat "=" (jsTrim c).length ++ "\n\n"
        else if level = 2 then
          "\n\n" ++ jsTrim c ++ "\n" ++ strRepeat "-" (jsTrim c).length ++ "\n\n"
        else
          "\n\n" ++ strRepeat "#" level ++ " " ++ jsTrim c ++ "\n\n"), st1) := by
  obtain ⟨h1, h6⟩ := hlevel
  have hsetne : ¬ opts.headingStyle = "atx" := by
    rw [hset]
    decide
  interval_cases level <;>
    simp only [show ("h" ++ natToDec 1 : String) = "h1" from by decide,
        show ("h" ++ natToDec 2 : String) = "h2" from by decide,
        show ("h" ++ natToDec 3 : String) = "h3" from by decide,
        show ("h" ++ natToDec 4 : String) = "h4" from by decide,
        show ("h" ++ natToDec 5 : String) = "h5" from by decide,
        show ("h" ++ natToDec 6 : String) = "h6" from by decide] at htag <;>
    simp only [processNodeG, processElementNodeG, processHeadingG, hget, htag, hch,
      if_neg hne, if_neg hsetne] <;>
    simp

/-- Witness for C6: a level-2 heading with content `Hi` under setext
options renders underlined with two dashes. -/
theorem C6_witness :
    processNodeG setextOptions h2Store 5 0 initState =
      some ("\n\nHi\n--\n\n", initState) := by
  exact (C6_setext_heading setextOptions h2Store 2 0 "H2" [] [1] initState "Hi"
    initState 2 (by decide) (by decide) (by decide) (by decide) (by decide)
    (by decide)).trans (by decide)

/-! ## C10: links without an href -/

/-- Claim C10 (confirmed): for every link node whose `href` attribute is
absent or empty, the renderer emits only the node's rendered (trimmed)
child text — no bracket or parenthesis link syntax — and leaves the
traversal state, including the reference-link table, exactly as the
children's rendering left it; when the child text is empty but `href` is
present, the `href` itself is used as the link text in both link styles. -/
theorem C10_link (opts : Options) (store : Store) (fuel id : Nat) (tag : String)
    (attrs : List (String × String)) (cs : List Nat) (st : ConvState)
    (t : String) (st1 : ConvState)
    (hget : store.get? id = some (GNode.element tag attrs cs))
    (htag : lowerStr tag = "a")
    (hch : processChildrenG opts store fuel cs st = some (t, st1)) :
    (jsGetAttribute attrs "href" = "" →
      processNodeG opts store (fuel + 3) id st = some (jsTrim t, st1)) ∧
    (∀ href, jsGetAttribute attrs "href" = href → href ≠ "" → jsTrim t = "" →
      processNodeG opts store (fuel + 3) id st =
        some ((if opts.linkStyle = "inline" then
            "[" ++ href ++ "](" ++ resolveUrl href ++ ")"
          else
            "[" ++ href ++ "][" ++ natToDec (st1.referenceCounter + 1) ++ "]"),
          (if opts.linkStyle = "inline" then st1
           else { st1 with
             referenceCounter := st1.referenceCounter + 1
             references :=
               st1.references ++ [(st1.referenceCounter + 1, resolveUrl href)] }))) := by
  have hstep : processNodeG opts store (fuel + 3) id st =
      processLinkG opts store (fuel + 1) attrs cs st := by
    simp only [processNodeG, processElementNodeG, hget, htag]
  constructor
  · intro h0
    rw [hstep]
    simp only [processLinkG, hch, h0]
    by_cases ht : jsTrim t = ""
    · simp [ht]
    · simp [ht]
  · intro href heq hne hempty
    rw [hstep]
    simp only [processLinkG, hch, heq, hempty]
    by_cases hl : opts.linkStyle = "inline"
    · simp [hne, hl]
    · simp [hne, hl]

/-- Witness for C10: a link without `href` renders as its child text with
the state untouched, and a link with `href` and empty content uses the
`href` as the link text. -/
theorem C10_witness :
    processNodeG defaultOptions noHrefLinkStore 5 0 initState =
      some ("click", initState) ∧
    processNodeG defaultOptions bareHrefLinkStore 5 0 initState =
      some ("[/x](/x)", initState) := by
  refine ⟨?_, ?_⟩
  · exact ((C10_link defaultOptions noHrefLinkStore 2 0 "A" [] [1] initState
      "click" initState (by decide) (by decide) (by decide)).1 (by decide)).trans
      (by decide)
  · exact ((C10_link defaultOptions bareHrefLinkStore 2 0 "A" [("href", "/x")] []
      initState "" initState (by decide) (by decide) (by decide)).2 "/x" (by decide)
      (by decide) (by decide)).trans (by decide)

/-! ## C3: cache hits versus direct rendering -/

/-- Claim C3 (counterexample): two structurally different subtrees of the
same document share a structural fingerprint; after the first populates the
cache, converting the second is a hit (the cache is returned unchanged with
its recency refreshed) and returns the first subtree's rendering, which
differs from the direct rendering of the second subtree. -/
theorem C3_counterexample :
    generateCacheKeyG collideStore 12 0 = generateCacheKeyG collideStore 12 3 ∧
    convertWithCacheG defaultPerfOptions collideStore 12 0 { maxSize := 100 } =
      some ("**ab**", { maxSize := 100, cache := [("DIV:2e9:B", "**ab**")] }) ∧
    convertWithCacheG defaultPerfOptions collideStore 12 3
        { maxSize := 100, cache := [("DIV:2e9:B", "**ab**")] } =
      some ("**ab**", { maxSize := 100, cache := [("DIV:2e9:B", "**ab**")] }) ∧
    convertG defaultOptions collideStore 12 3 = some "**a**b" ∧
    "**ab**" ≠ "**a**b" := by
  exact ⟨by decide, by decide, by decide, by decide, by decide⟩

/-- Claim C3 (amended): `convertWithCache` returns the direct rendering of
the subtree whenever every value the cache holds under the subtree's
fingerprint equals that direct rendering — in particular on every cache
miss; on a hit it returns the stored value, which is the rendering of the
first subtree inserted with that fingerprint and may differ from the
current subtree's direct rendering when fingerprints collide. -/
theorem C3_amended (popts : PerfOptions) (store : Store) (fuel id : Nat)
    (cache : LRUCache) (key r : String)
    (hkey : generateCacheKeyG store fuel id = some key)
    (hconv : convertG popts.toOptions store fuel id = some r)
    (hcons : ∀ v, mapLookup cache.cache key = some v → v = r) :
    (convertWithCacheG popts store fuel id cache).map (fun p => p.1) = some r := by
  cases hv : mapLookup cache.cache key with
  | none =>
    simp only [convertWithCacheG, lruGet, hkey, hconv, hv, Option.map]
  | some v =>
    have hvr := hcons v hv
    subst hvr
    by_cases hz : v = ""
    · subst hz
      simp only [convertWithCacheG, lruGet, hkey, hconv, hv, Option.map]
      simp
    · simp only [convertWithCacheG, lruGet, hkey, hconv, hv, Option.map]
      simp [hz]

/-- Witness for C3's amended theorem: on an empty cache (a miss) the cached
conversion returns exactly the direct rendering. -/
theorem C3_witness :
    (convertWithCacheG defaultPerfOptions collideStore 12 0
      { maxSize := 100 }).map (fun p => p.1) = some "**ab**" := by
  exact C3_amended defaultPerfOptions collideStore 12 0 { maxSize := 100 }
    "DIV:2e9:B" "**ab**" (by decide) (by decide)
    (fun v hv => by simp [mapLookup] at hv)

/-! ## C1: streaming versus direct conversion -/

/-- Claim C1 (counterexample): on the two-node document `<div>hi</div>` the
streaming mode produces the fragment sequence `[\"hihi\"]` — the breadth-
first buffer holds both the container and its text node, and the chunk
renders the cloned container (containing `hi`) followed by the cloned text
node (`hi` again) — whereas direct conversion produces `hi`, so the
concatenation of the streaming fragments differs from the direct result. -/
theorem C1_counterexample :
    streamingFragmentsG defaultPerfOptions streamStore 20 0 = some ["hihi"] ∧
    streamingConvertG defaultPerfOptions streamStore 20 0 = some "hihi" ∧
    directConvertG defaultPerfOptions streamStore 20 0 = some "hi" ∧
    streamingConvertG defaultPerfOptions streamStore 20 0 ≠
      directConvertG defaultPerfOptions streamStore 20 0 := by
  exact ⟨by decide, by decide, by decide, by decide⟩

/-- Claim C1 (amended): streaming-mode conversion agrees with direct
conversion for a childless generic container root (with any attributes):
there the single breadth-first buffer holds only the root, so no subtree is
duplicated into the chunk container.  With any child present the streaming
chunk renders the child both inside the cloned root and as a cloned node of
its own, and the concatenated fragments differ from the direct result. -/
theorem C1_amended (attrs : List (String × String)) :
    streamingConvertG defaultPerfOptions [GNode.element "DIV" attrs []] 20 0 =
      directConvertG defaultPerfOptions [GNode.element "DIV" attrs []] 20 0 := rfl

/-! ## C9: the LRU chunk cache -/

/-- Setting a key adds at most one entry: an update keeps the length, an
insertion appends one. -/
theorem jsMapSet_length_le (l : List (String × String)) (k v : String) :
    (jsMapSet l k v).length ≤ l.length + 1 := by
  unfold jsMapSet
  split
  · simp
  · simp

/-- A key present in the image of `jsMapSet` was present before or is the
key that was set. -/
theorem mem_keys_jsMapSet (l : List (String × String)) (k v : String) (x : String)
    (hx : x ∈ (jsMapSet l k v).map Prod.fst) : x ∈ l.map Prod.fst ∨ x = k := by
  unfold jsMapSet at hx
  split at hx
  · simp only [List.map_map, List.mem_map, Function.comp] at hx
    obtain ⟨e, he, hfst⟩ := hx
    by_cases hek : e.1 = k
    · right
      rw [if_pos hek] at hfst
      exact hfst.symm
    · left
      rw [if_neg hek] at hfst
      exact List.mem_map.mpr ⟨e, he, hfst⟩
  · rw [List.map_append, List.mem_append] at hx
    cases hx with
    | inl h => exact Or.inl h
    | inr h =>
      right
      simp only [List.map_cons, List.map_nil, List.mem_singleton] at h
      exact h

/-- Unpack a successful `mapLookup` into the found entry. -/
theorem mapLookup_some (l : List (String × String)) (k w : String)
    (h : mapLookup l k = some w) :
    ∃ e, e ∈ l ∧ e.1 = k ∧ e.2 = w := by
  unfold mapLookup at h
  rw [Option.map_eq_some'] at h
  obtain ⟨e, hfind, hw⟩ := h
  have hmem := List.mem_of_find?_eq_some hfind
  have hp := List.find?_some hfind
  simp only [decide_eq_true_eq] at hp
  exact ⟨e, hmem, hp, hw⟩

/-- Claim C9 (counterexample): with a configured capacity of 0 the cache
holds one entry after a set — `keys().next().value` of the empty map is
`undefined`, deleting it is a no-op, and the entry is then inserted — so
the cache exceeds its configured capacity. -/
theorem C9_counterexample :
    (lruSet { maxSize := 0 } "k" "v").cache.length = 1 ∧
    ¬ ((lruSet { maxSize := 0 } "k" "v").cache.length ≤
        ({ maxSize := 0 } : LRUCache).maxSize) := by
  exact ⟨by decide, by decide⟩

/-- Claim C9 (amended): for a positive configured capacity, starting from a
cache within capacity (with distinct keys, as the operations maintain): a
get never changes the entry count and a set keeps it at most the capacity;
a set that occurs at capacity first evicts the front — least recently
used — entry, so an evicted key other than the one being set is no longer
present; and a get on a present key returns its value and moves the entry
to the most recently used (last) position. -/
theorem C9_amended (c : LRUCache) (k v : String)
    (hmax : 1 ≤ c.maxSize)
    (hinv : c.cache.length ≤ c.maxSize) :
    ((lruGet c k).2.cache.length ≤ c.maxSize) ∧
    ((lruSet c k v).cache.length ≤ c.maxSize) ∧
    (c.cache.length = c.maxSize →
      (lruSet c k v).cache = jsMapSet c.cache.tail k v) ∧
    (∀ w, mapLookup c.cache k = some w →
      (lruGet c k).1 = some w ∧
      (lruGet c k).2.cache = c.cache.eraseP (fun e => e.1 == k) ++ [(k, w)] ∧
      (lruGet c k).2.cache.getLast? = some (k, w)) ∧
    ((c.cache.map Prod.fst).Nodup → c.cache.length = c.maxSize →
      ∀ hd tl, c.cache = hd :: tl → hd.1 ≠ k →
        hd.1 ∉ ((lruSet c k v).cache.map Prod.fst)) := by
  have hsetlen : (lruSet c k v).cache.length ≤ c.maxSize := by
    unfold lruSet
    by_cases hge : c.cache.length ≥ c.maxSize
    · simp only [if_pos hge]
      cases hc : c.cache with
      | nil =>
        rw [hc] at hge
        simp only [List.length_nil] at hge
        exfalso
        omega
      | cons hd tl =>
        show (jsMapSet tl k v).length ≤ c.maxSize
        have h1 : (jsMapSet tl k v).length ≤ tl.length + 1 := jsMapSet_length_le tl k v
        rw [hc] at hinv
        simp only [List.length_cons] at hinv
        omega
    · simp only [if_neg hge]
      show (jsMapSet c.cache k v).length ≤ c.maxSize
      have h1 : (jsMapSet c.cache k v).length ≤ c.cache.length + 1 :=
        jsMapSet_length_le c.cache k v
      omega
  refine ⟨?_, hsetlen, ?_, ?_, ?_⟩
  · unfold lruGet
    cases hv : mapLookup c.cache k with
    | none => exact hinv
    | some w =>
      show (c.cache.eraseP (fun e => e.1 == k) ++ [(k, w)]).length ≤ c.maxSize
      obtain ⟨e, hmem, hek, _⟩ := mapLookup_some c.cache k w hv
      have hlen := @List.length_eraseP_add_one (String × String)
        (fun x => x.1 == k) c.cache e hmem (by simp [hek])
      simp only [List.length_append, List.length_cons, List.length_nil]
      omega
  · intro hlen
    unfold lruSet
    simp only [if_pos (le_of_eq hlen.symm)]
    cases c.cache with
    | nil => rfl
    | cons hd tl => rfl
  · intro w hv
    unfold lruGet
    rw [hv]
    refine ⟨rfl, rfl, ?_⟩
    exact List.getLast?_concat _
  · intro hnd hlen hd tl hc hne
    intro hmem
    have hset : (lruSet c k v).cache = jsMapSet tl k v := by
      have hlen2 : (hd :: tl).length ≥ c.maxSize := by rw [← hc, hlen]
      unfold lruSet
      rw [hc]
      simp only [if_pos hlen2]
    rw [hset] at hmem
    cases mem_keys_jsMapSet tl k v hd.1 hmem with
    | inl h =>
      rw [hc] at hnd
      simp only [List.map_cons, List.nodup_cons] at hnd
      exact hnd.1 h
    | inr h => exact hne h

/-- Witness for C9's amended theorem at a concrete two-entry cache of
capacity two: a get preserves the size bound, a set at capacity evicts the
oldest entry (its key disappears), and a get moves the touched entry to the
most recently used position. -/
theorem C9_witness :
    ((lruGet { maxSize := 2, cache := [("a", "1"), ("b", "2")] } "a").2.cache.length ≤
      ({ maxSize := 2, cache := [("a", "1"), ("b", "2")] } : LRUCache).maxSize) ∧
    ((lruSet { maxSize := 2, cache := [("a", "1"), ("b", "2")] } "c" "3").cache =
      jsMapSet [("b", "2")] "c" "3") ∧
    ("a" ∉ ((lruSet { maxSize := 2, cache := [("a", "1"), ("b", "2")] }
      "c" "3").cache.map Prod.fst)) ∧
    ((lruGet { maxSize := 2, cache := [("a", "1"), ("b", "2")] } "a").2.cache.getLast? =
      some ("a", "1")) := by
  have h := C9_amended { maxSize := 2, cache := [("a", "1"), ("b", "2")] } "c" "3"
    (by decide) (by decide)
  have hg := C9_amended { maxSize := 2, cache := [("a", "1"), ("b", "2")] } "a" "9"
    (by decide) (by decide)
  exact ⟨hg.1, h.2.2.1 (by decide),
    h.2.2.2.2 (by decide) (by decide) ("a", "1") [("b", "2")] rfl (by decide),
    (hg.2.2.2.1 "1" (by decide)).2.2⟩

/-! ## C4: table formatting -/

theorem string_join_cons (a : String) (l : List String) :
    String.join (a :: l) = a ++ String.join l := by
  apply String.ext
  simp [String.data_join]

/-- A left fold that appends a rendering of each element equals the
accumulator followed by the joined renderings. -/
theorem foldl_append_join {α : Type} (f : α → String) :
    ∀ (l : List α) (acc : String),
      l.foldl (fun a x => a ++ f x) acc = acc ++ String.join (l.map f)
  | [], acc => by simp [String.join]
  | x :: xs, acc => by
    simp only [List.foldl_cons, List.map_cons]
    rw [foldl_append_join f xs (acc ++ f x), string_join_cons, String.append_assoc]

/-- The emitted row is a pipe followed by exactly `n` padded-cell segments
(one per column index) and a newline. -/
theorem formatRowString_eq (n : Nat) (w : List Nat) (row : List String) :
    formatRowString n w row =
      "| " ++ String.join ((List.range n).map
        (fun i => jsPadEnd (row.getD i "") (w.getD i 0) ++ " | ")) ++ "\n" := by
  unfold formatRowString
  rw [foldl_append_join]

/-- The separator row likewise has exactly `n` dash segments. -/
theorem formatSeparatorString_eq (n : Nat) (w : List Nat) :
    formatSeparatorString n w =
      "| " ++ String.join ((List.range n).map
        (fun i => strRepeat "-" (w.getD i 0) ++ " | ")) ++ "\n" := by
  unfold formatSeparatorString
  rw [foldl_append_join]

theorem updWidths_length : ∀ (ws : List Nat) (row : List String),
    (updWidths ws row).length = ws.length
  | [], _ => rfl
  | _ :: _, [] => rfl
  | w :: ws, c :: cs => by
    simp only [updWidths, List.length_cons, updWidths_length ws cs]

theorem updWidths_getD_le : ∀ (ws : List Nat) (row : List String) (i : Nat),
    ws.getD i 0 ≤ (updWidths ws row).getD i 0
  | [], _, _ => le_refl _
  | _ :: _, [], _ => le_refl _
  | w :: ws, c :: cs, 0 => by
    simp only [updWidths, List.getD_cons_zero]
    exact Nat.le_max_left _ _
  | w :: ws, c :: cs, i + 1 => by
    simp only [updWidths, List.getD_cons_succ]
    exact updWidths_getD_le ws cs i

theorem updWidths_getD_row : ∀ (ws : List Nat) (row : List String) (i : Nat) (c : String),
    row.get? i = some c → i < ws.length → c.length ≤ (updWidths ws row).getD i 0
  | [], _, i, _, _, hi => absurd hi (by simp)
  | _ :: _, [], i, c, hg, _ => by simp at hg
  | w :: ws, c0 :: cs, 0, c, hg, _ => by
    simp only [List.get?] at hg
    cases hg
    simp only [updWidths, List.getD_cons_zero]
    exact Nat.le_max_right _ _
  | w :: ws, c0 :: cs, i + 1, c, hg, hi => by
    simp only [List.get?] at hg
    simp only [updWidths, List.getD_cons_succ]
    exact updWidths_getD_row ws cs i c hg (by
      simp only [List.length_cons] at hi
      omega)

theorem foldlWidths_getD_le : ∀ (data : List (List String)) (init : List Nat) (i : Nat),
    init.getD i 0 ≤ (data.foldl updWidths init).getD i 0
  | [], _, _ => le_refl _
  | r :: rs, init, i =>
    le_trans (updWidths_getD_le init r i) (foldlWidths_getD_le rs (updWidths init r) i)

theorem foldlWidths_length : ∀ (data : List (List String)) (init : List Nat),
    (data.foldl updWidths init).length = init.length
  | [], _ => rfl
  | r :: rs, init => by
    rw [List.foldl_cons, foldlWidths_length rs (updWidths init r), updWidths_length]

theorem foldlWidths_covers : ∀ (data : List (List String)) (init : List Nat)
    (row : List String), row ∈ data → ∀ (i : Nat) (c : String), row.get? i = some c →
      i < init.length → c.length ≤ (data.foldl updWidths init).getD i 0
  | [], _, _, hmem, _, _, _, _ => absurd hmem (List.not_mem_nil _)
  | r :: rs, init, row, hmem, i, c, hg, hi => by
    rcases List.mem_cons.mp hmem with h | h
    · subst h
      exact le_trans (updWidths_getD_row init row i c hg hi)
        (foldlWidths_getD_le rs (updWidths init row) i)
    · exact foldlWidths_covers rs (updWidths init r) row h i c hg
        (by rw [updWidths_length]; exact hi)

theorem init_le_foldl_max : ∀ (l : List Nat) (a : Nat), a ≤ l.foldl Nat.max a
  | [], a => le_refl a
  | b :: bs, a => le_trans (Nat.le_max_left a b) (init_le_foldl_max bs (Nat.max a b))

theorem le_foldl_max : ∀ (l : List Nat) (a x : Nat), x ∈ l → x ≤ l.foldl Nat.max a
  | [], _, _, h => absurd h (List.not_mem_nil _)
  | b :: bs, a, x, h => by
    rcases List.mem_cons.mp h with h | h
    · subst h
      exact le_trans (Nat.le_max_right a x) (init_le_foldl_max bs (Nat.max a x))
    · exact le_foldl_max bs (Nat.max a b) x h

theorem row_length_le_columnCount (data : List (List String)) (row : List String)
    (h : row ∈ data) : row.length ≤ tableColumnCount data :=
  le_foldl_max (data.map List.length) 0 row.length (List.mem_map_of_mem _ h)

theorem getD_replicate_of_lt : ∀ (n x i : Nat), i < n → (List.replicate n x).getD i 0 = x
  | 0, _, i, hi => absurd hi (Nat.not_lt_zero i)
  | n + 1, x, 0, _ => rfl
  | n + 1, x, i + 1, hi => by
    simp only [List.replicate, List.getD_cons_succ]
    exact getD_replicate_of_lt n x i (by omega)

theorem length_string_mk (l : List Char) : (String.mk l).length = l.length := rfl

theorem nat_max_ite (a b : Nat) : Nat.max a b = if a ≤ b then b else a := rfl

/-- Padding a string to width `n` yields the larger of the two lengths. -/
theorem jsPadEnd_length (s : String) (n : Nat) :
    (jsPadEnd s n).length = Nat.max s.length n := by
  unfold jsPadEnd
  rw [String.length_append]
  show s.length + (List.replicate (n - s.length) ' ').length = _
  rw [List.length_replicate, nat_max_ite]
  split <;> omega

/-- Once past the first row (positive row index), the row loop of
`formatTable` appends one row string per row and never a separator. -/
theorem foldl_rows_from_one {rowStr : List String → String} {sep : String}
    {hasHeader : Bool} :
    ∀ (data : List (List String)) (acc : String) (kk : Nat), kk ≠ 0 →
      (data.foldl (fun (a : String × Nat) row =>
          (a.1 ++ rowStr row ++ (if a.2 = 0 ∧ hasHeader then sep else ""), a.2 + 1))
        (acc, kk)).1 = acc ++ String.join (data.map rowStr)
  | [], acc, kk, _ => by simp [String.join]
  | r :: rs, acc, kk, hk => by
    simp only [List.foldl_cons]
    have hif : (if kk = 0 ∧ hasHeader then sep else "") = "" := by
      rw [if_neg]
      rintro ⟨h0, _⟩
      exact hk h0
    rw [hif, String.append_empty,
      foldl_rows_from_one rs (acc ++ rowStr r) (kk + 1) (by omega),
      List.map_cons, string_join_cons, String.append_assoc]

/-- Claim C4 (counterexample): on the table whose first row is a single
`colspan=3` cell and whose second row has two cells, the span-normalized
maximum column count is 3, but the formatter ignores span attributes — a
spanned cell counts once — and emits every row with
`tableColumnCount = 2` cells. -/
theorem C4_counterexample :
    collectTRsL spanTableStore 15 "TABLE" [1, 4] =
      some [("TABLE", 1), ("TABLE", 4)] ∧
    processRowsG defaultOptions spanTableStore 15 [("TABLE", 1), ("TABLE", 4)]
      initState = some ([["A"], ["C", "D"]], true, initState) ∧
    specSpanNormalizedMaxColumns spanTableStore 15 "TABLE" [1, 4] = some 3 ∧
    tableColumnCount [["A"], ["C", "D"]] = 2 ∧
    convertG defaultOptions spanTableStore 15 0 =
      some "| A   |     | \n| --- | --- | \n| C   | D   |" ∧
    (2 : Nat) ≠ 3 := by
  exact ⟨by decide, by decide, by decide, by decide, by decide, by decide⟩

/-- Claim C4 (amended): for any non-empty table data, every emitted row has
the same number of pipe-delimited cells, equal to the maximum number of
cells across the rows as collected — colspan and rowspan attributes being
ignored, so a spanned cell counts once, not N times; each column is padded
to a width of at least 3 (every emitted cell segment is exactly its
column's width, which is at least 3); and when a header is present a dash
separator row is emitted immediately after the first row. -/
theorem C4_amended (tableData : List (List String)) (hasHeader : Bool)
    (hne : tableData ≠ []) :
    ∃ widths : List Nat,
      widths.length = tableColumnCount tableData ∧
      (∀ i, i < tableColumnCount tableData → 3 ≤ widths.getD i 0) ∧
      (∀ row, row ∈ tableData → ∀ i, i < tableColumnCount tableData →
        (jsPadEnd (row.getD i "") (widths.getD i 0)).length = widths.getD i 0) ∧
      (∀ row : List String, formatRowString (tableColumnCount tableData) widths row =
        "| " ++ String.join ((List.range (tableColumnCount tableData)).map
          (fun i => jsPadEnd (row.getD i "") (widths.getD i 0) ++ " | ")) ++ "\n") ∧
      formatTable tableData hasHeader =
        "\n\n" ++ rowsWithSeparator
          (tableData.map (fun row =>
            formatRowString (tableColumnCount tableData) widths row))
          hasHeader
          (formatSeparatorString (tableColumnCount tableData) widths) ++ "\n" := by
  refine ⟨tableColumnWidths tableData (tableColumnCount tableData), ?_, ?_, ?_, ?_, ?_⟩
  · unfold tableColumnWidths
    rw [foldlWidths_length, List.length_replicate]
  · intro i hi
    unfold tableColumnWidths
    have h1 := foldlWidths_getD_le tableData
      (List.replicate (tableColumnCount tableData) 3) i
    rw [getD_replicate_of_lt _ 3 i hi] at h1
    exact h1
  · intro row hrow i hi
    have hcell : (row.getD i "").length ≤
        (tableColumnWidths tableData (tableColumnCount tableData)).getD i 0 := by
      unfold tableColumnWidths
      cases hg : row.get? i with
      | none =>
        rw [List.getD_eq_get?, hg]
        have h1 := foldlWidths_getD_le tableData
          (List.replicate (tableColumnCount tableData) 3) i
        rw [getD_replicate_of_lt _ 3 i hi] at h1
        have h0 : ((none : Option String).getD "").length = 0 := rfl
        omega
      | some c =>
        rw [List.getD_eq_get?, hg, Option.getD_some]
        exact foldlWidths_covers tableData _ row hrow i c hg
          (by rw [List.length_replicate]; exact hi)
    have h3 : 3 ≤ (tableColumnWidths tableData (tableColumnCount tableData)).getD i 0 := by
      unfold tableColumnWidths
      have h1 := foldlWidths_getD_le tableData
        (List.replicate (tableColumnCount tableData) 3) i
      rw [getD_replicate_of_lt _ 3 i hi] at h1
      exact h1
    rw [jsPadEnd_length, nat_max_ite]
    split <;> omega
  · intro row
    exact formatRowString_eq _ _ row
  · cases tableData with
    | nil => exact absurd rfl hne
    | cons r rs =>
      unfold formatTable
      rw [if_neg (by simp)]
      simp only [List.foldl_cons, List.map_cons, Nat.zero_add]
      rw [foldl_rows_from_one rs _ 1 one_ne_zero]
      unfold rowsWithSeparator
      simp only [String.empty_append, eq_self_iff_true, true_and]

/-- Witness for C4's amended theorem at the concrete two-row table data
the counterexample produces. -/
theorem C4_witness :
    ∃ widths : List Nat,
      widths.length = tableColumnCount [["A"], ["C", "D"]] ∧
      (∀ i, i < tableColumnCount [["A"], ["C", "D"]] → 3 ≤ widths.getD i 0) ∧
      (∀ row, row ∈ [["A"], ["C", "D"]] → ∀ i, i < tableColumnCount [["A"], ["C", "D"]] →
        (jsPadEnd (row.getD i "") (widths.getD i 0)).length = widths.getD i 0) ∧
      (∀ row : List String, formatRowString (tableColumnCount [["A"], ["C", "D"]]) widths row =
        "| " ++ String.join ((List.range (tableColumnCount [["A"], ["C", "D"]])).map
          (fun i => jsPadEnd (row.getD i "") (widths.getD i 0) ++ " | ")) ++ "\n") ∧
      formatTable [["A"], ["C", "D"]] true =
        "\n\n" ++ rowsWithSeparator
          ([["A"], ["C", "D"]].map (fun row =>
            formatRowString (tableColumnCount [["A"], ["C", "D"]]) widths row))
          true
          (formatSeparatorString (tableColumnCount [["A"], ["C", "D"]]) widths) ++ "\n" := by
  exact C4_amended [["A"], ["C", "D"]] true (by decide)

end WebMD
